import Mathlib

/-!
Verification of the benchmark aggregate comparator of the `patternia`
repository (scripts `bench_compare.py` and `bench_single_report.py`).

Embedding conventions:
* Python strings are `List Char` (`Str`); comparison of characters is by
  code point (`Char.toNat`), matching Python string ordering.
* Python floats are rationals `ℚ`; a metric that Python sets to `math.nan`
  (undefined) is `none : Option ℚ`, a defined value `x` is `some x`.
  The inputs themselves (JSON `cpu_time` numbers) are finite rationals.
* Python dicts are insertion-ordered association lists `List (Str × α)`;
  `dlookup`, `dinsert`, `dsetdefault`, `dmodify` mirror `d[k]`,
  `d[k] = v`, `d.setdefault(k, v)` and in-place mutation of a slot.
* `Option Str` fields model `entry.get(...)`; Python string truthiness
  (`if not s`) is `strTruthy`.
-/

namespace Patternia

/- Allow kernel evaluation of sorted lists and rational arithmetic in the
concrete witness computations below. -/
unseal List.merge List.mergeSort Rat.mul Rat.sub Rat.add Rat.inv

abbrev Str := List Char

/-- Lexicographic order on strings by code point, as Python compares
strings: `lexLe s t` iff `s <= t`. -/
def lexLe : Str → Str → Bool
  | [], _ => true
  | _ :: _, [] => false
  | a :: as, b :: bs =>
    if a.toNat < b.toNat then true
    else if b.toNat < a.toNat then false
    else lexLe as bs

theorem lexLe_cons_iff (a b : Char) (as bs : Str) :
    lexLe (a :: as) (b :: bs) = true ↔
      a.toNat < b.toNat ∨ (a.toNat = b.toNat ∧ lexLe as bs = true) := by
  simp only [lexLe]
  by_cases hab : a.toNat < b.toNat
  · simp [hab]
  · by_cases hba : b.toNat < a.toNat
    · simp [hab, hba]; omega
    · have heq : a.toNat = b.toNat := by omega
      simp [hab, hba, heq]

theorem lexLe_trans : ∀ s t u : Str, lexLe s t → lexLe t u → lexLe s u
  | [], _, _, _, _ => rfl
  | _ :: _, [], _, h, _ => by simp [lexLe] at h
  | _ :: _, _ :: _, [], _, h => by simp [lexLe] at h
  | a :: as, b :: bs, c :: cs, h1, h2 => by
    rw [lexLe_cons_iff] at h1 h2 ⊢
    rcases h1 with h1 | ⟨h1e, h1r⟩ <;> rcases h2 with h2 | ⟨h2e, h2r⟩
    · left; omega
    · left; omega
    · left; omega
    · exact Or.inr ⟨by omega, lexLe_trans as bs cs h1r h2r⟩

theorem lexLe_total : ∀ s t : Str, lexLe s t || lexLe t s
  | [], _ => by simp [lexLe]
  | _ :: _, [] => by simp [lexLe]
  | a :: as, b :: bs => by
    simp only [Bool.or_eq_true, lexLe_cons_iff]
    rcases Nat.lt_trichotomy a.toNat b.toNat with h | h | h
    · exact Or.inl (Or.inl h)
    · rcases Bool.or_eq_true _ _ |>.mp (lexLe_total as bs) with h2 | h2
      · exact Or.inl (Or.inr ⟨h, h2⟩)
      · exact Or.inr (Or.inr ⟨h.symm, h2⟩)
    · exact Or.inr (Or.inl h)

section Dict

variable {α : Type}

/-- Lookup in a Python-style dict: first binding of the key wins
(keys are unique in dicts built by the operations below). -/
def dlookup (k : Str) : List (Str × α) → Option α
  | [] => none
  | (k2, v) :: rest => if k2 = k then some v else dlookup k rest

/-- Assignment `d[k] = v`: replace in place, else append. -/
def dinsert (k : Str) (v : α) : List (Str × α) → List (Str × α)
  | [] => [(k, v)]
  | (k2, w) :: rest =>
    if k2 = k then (k2, v) :: rest else (k2, w) :: dinsert k v rest

/-- Python `d.setdefault(k, v0)`: register `k` with `v0` when absent. -/
def dsetdefault (k : Str) (v0 : α) (d : List (Str × α)) : List (Str × α) :=
  match dlookup k d with
  | some _ => d
  | none => d ++ [(k, v0)]

/-- In-place update of the value at `k` (models mutating the slot object
returned by `setdefault`). -/
def dmodify (k : Str) (f : α → α) : List (Str × α) → List (Str × α)
  | [] => []
  | (k2, v) :: rest =>
    if k2 = k then (k2, f v) :: rest else (k2, v) :: dmodify k f rest

/-- Key view of a dict, as Python `set(d)` membership. -/
def dkeys (d : List (Str × α)) : List Str := d.map Prod.fst

/-- Membership test `k in d`. -/
def dcontains (k : Str) (d : List (Str × α)) : Bool := (dlookup k d).isSome

theorem dlookup_dinsert_self (k : Str) (v : α) :
    ∀ d : List (Str × α), dlookup k (dinsert k v d) = some v
  | [] => by simp [dinsert, dlookup]
  | (k2, w) :: rest => by
    by_cases h : k2 = k <;>
      simp [dinsert, dlookup, h, dlookup_dinsert_self k v rest]

theorem dlookup_dinsert_ne (k k2 : Str) (v : α) (hne : k2 ≠ k) :
    ∀ d : List (Str × α), dlookup k2 (dinsert k v d) = dlookup k2 d
  | [] => by simp [dinsert, dlookup, Ne.symm hne]
  | (k3, w) :: rest => by
    by_cases h : k3 = k
    · subst h
      simp [dinsert, dlookup, Ne.symm hne]
    · simp only [dinsert, dlookup, if_neg h]
      by_cases h2 : k3 = k2 <;>
        simp [h2, dlookup_dinsert_ne k k2 v hne rest]

theorem dlookup_append (k : Str) (d1 d2 : List (Str × α)) :
    dlookup k (d1 ++ d2) =
      match dlookup k d1 with
      | some v => some v
      | none => dlookup k d2 := by
  induction d1 with
  | nil => simp [dlookup]
  | cons p rest ih =>
    obtain ⟨k2, v⟩ := p
    by_cases h : k2 = k <;> simp [dlookup, h, ih]

theorem dlookup_dsetdefault_self (k : Str) (v0 : α) (d : List (Str × α)) :
    dlookup k (dsetdefault k v0 d) = some ((dlookup k d).getD v0) := by
  unfold dsetdefault
  cases h : dlookup k d with
  | some v => simp [h]
  | none => simp [dlookup_append, h, dlookup]

theorem dlookup_dsetdefault_ne (k k2 : Str) (v0 : α) (hne : k2 ≠ k)
    (d : List (Str × α)) :
    dlookup k2 (dsetdefault k v0 d) = dlookup k2 d := by
  unfold dsetdefault
  cases h : dlookup k d with
  | some v => simp
  | none =>
    rw [dlookup_append]
    cases h2 : dlookup k2 d <;> simp [h2, dlookup, Ne.symm hne]

theorem dlookup_dmodify_self (k : Str) (f : α → α) :
    ∀ d : List (Str × α), dlookup k (dmodify k f d) = (dlookup k d).map f
  | [] => by simp [dmodify, dlookup]
  | (k2, v) :: rest => by
    by_cases h : k2 = k <;>
      simp [dmodify, dlookup, h, dlookup_dmodify_self k f rest]

theorem dlookup_dmodify_ne (k k2 : Str) (f : α → α) (hne : k2 ≠ k) :
    ∀ d : List (Str × α), dlookup k2 (dmodify k f d) = dlookup k2 d
  | [] => by simp [dmodify, dlookup]
  | (k3, v) :: rest => by
    by_cases h : k3 = k
    · subst h
      simp [dmodify, dlookup, Ne.symm hne]
    · simp only [dmodify, dlookup, if_neg h]
      by_cases h2 : k3 = k2 <;>
        simp [h2, dlookup_dmodify_ne k k2 f hne rest]

theorem dlookup_isSome_iff_mem_dkeys (k : Str) :
    ∀ d : List (Str × α), (dlookup k d).isSome ↔ k ∈ dkeys d
  | [] => by simp [dlookup, dkeys]
  | (k2, v) :: rest => by
    have ih := dlookup_isSome_iff_mem_dkeys k rest
    by_cases h : k2 = k
    · subst h
      simp only [dlookup, if_pos rfl, Option.isSome_some, dkeys,
        List.map_cons, List.mem_cons]
      exact iff_of_true rfl (Or.inl trivial)
    · simp only [dlookup, if_neg h, dkeys, List.map_cons, List.mem_cons]
      exact ih.trans
        ⟨fun hm => Or.inr hm,
         fun hk => hk.elim (fun he => absurd he.symm h) id⟩

theorem dcontains_iff_mem_dkeys (k : Str) (d : List (Str × α)) :
    dcontains k d = true ↔ k ∈ dkeys d := by
  simpa [dcontains] using dlookup_isSome_iff_mem_dkeys k d

end Dict

/-! ## `bench_compare.py` -/

/-- Slot of named statistics for one benchmark identity
(`Dict[str, float]` values of `_extract_aggregates`). -/
abbrev Slot := List (Str × ℚ)

/-- An `AggregateSet`: identity to statistics slot
(`Dict[str, Dict[str, float]]`). -/
abbrev AggSet := List (Str × Slot)

/-- Row of the pairwise comparison (`BenchRow` dataclass). Undefined
(`math.nan`) metrics are `none`. -/
structure BenchRow where
  name : Str
  baseline_mean_ns : ℚ
  current_mean_ns : ℚ
  delta_pct : Option ℚ
  speedup : Option ℚ
  baseline_cv_pct : Option ℚ
  current_cv_pct : Option ℚ
deriving DecidableEq

/-- Fields of one benchmark JSON entry used by `_extract_aggregates`. -/
structure AggEntry where
  run_name : Option Str
  aggregate_name : Option Str
  cpu_time : Option ℚ

/-- Python string truthiness for an optional field: a missing or empty
string is falsy (`if not run_name or not agg`). -/
def strTruthy : Option Str → Option Str
  | some s => if s = [] then none else some s
  | none => none

def meanKey : Str := ['m', 'e', 'a', 'n']
def cvKey : Str := ['c', 'v']

/-- Body of the loop of `_extract_aggregates`: skip entries without a
truthy `run_name` and `aggregate_name`; otherwise register the identity
(`out.setdefault(run_name, ...)`) and, when `cpu_time` is present, store
it under the aggregate kind. -/
def extractAggStep (out : AggSet) (e : AggEntry) : AggSet :=
  match strTruthy e.run_name, strTruthy e.aggregate_name with
  | some rn, some ag =>
    let out1 := dsetdefault rn [] out
    match e.cpu_time with
    | some v => dmodify rn (fun slot => dinsert ag v slot) out1
    | none => out1
  | _, _ => out

/-- `_extract_aggregates`: fold the entries into an `AggSet`. -/
def extract_aggregates (payload : List AggEntry) : AggSet :=
  payload.foldl extractAggStep []

/-- Row construction of the loop body of `_to_rows` for one matched
identity: both slots must carry a `mean`, else the identity is skipped. -/
def mkRow (baseline current : AggSet) (name : Str) : Option BenchRow :=
  match dlookup name baseline, dlookup name current with
  | some bslot, some cslot =>
    match dlookup meanKey bslot, dlookup meanKey cslot with
    | some b_mean, some c_mean =>
      some
        { name := name
          baseline_mean_ns := b_mean
          current_mean_ns := c_mean
          delta_pct :=
            if b_mean ≠ 0 then some ((c_mean - b_mean) / b_mean * 100)
            else none
          speedup := if c_mean ≠ 0 then some (b_mean / c_mean) else none
          baseline_cv_pct := (dlookup cvKey bslot).map (fun x => x * 100)
          current_cv_pct := (dlookup cvKey cslot).map (fun x => x * 100) }
    | _, _ => none
  | _, _ => none

/-- `_to_rows`: sorted intersection of the key sets, optional name
filter (the compiled `--include` regex, modelled as a predicate), then
one row per identity whose two slots both carry a `mean`. -/
def to_rows (baseline current : AggSet)
    (include_filter : Option (Str → Bool)) : List BenchRow :=
  let names0 :=
    (((dkeys baseline).filter (fun n => dcontains n current)).dedup).mergeSort
      lexLe
  let names :=
    match include_filter with
    | some p => names0.filter p
    | none => names0
  names.filterMap (mkRow baseline current)

/-- `_is_finite` on a metric: `math.nan` (and any non-finite float) is
modelled by `none`, so finiteness is definedness. -/
def is_finite (x : Option ℚ) : Bool := x.isSome

/-- Comparison `x > t` as Python evaluates it on a possibly-NaN float:
false when `x` is undefined. -/
def optGtBool (x : Option ℚ) (t : ℚ) : Bool :=
  match x with
  | some d => decide (t < d)
  | none => false

/-- `_find_regressions`: rows whose `delta_pct` is finite and strictly
above the threshold. -/
def find_regressions (rows : List BenchRow) (max_regress_pct : ℚ) :
    List BenchRow :=
  rows.filter (fun r => is_finite r.delta_pct && optGtBool r.delta_pct max_regress_pct)

/-! ## `bench_single_report.py` -/

/-- String literal helper: the character list of a `String`. -/
def strL (s : String) : Str := s.toList

def medianKey : Str := ['m', 'e', 'd', 'i', 'a', 'n']
def stddevKey : Str := ['s', 't', 'd', 'd', 'e', 'v']

/-- One point of the single-source report (`BenchPoint` dataclass). -/
structure BenchPoint where
  base_name : Str
  impl : Str
  scenario : Str
  mean_ns : ℚ
  cv_pct : Option ℚ
  median_ns : Option ℚ
  stddev_ns : Option ℚ
deriving DecidableEq

/-- Fields of one benchmark JSON entry used by `_extract_metrics`. -/
structure MetricEntry where
  run_name : Option Str
  name : Option Str
  aggregate_name : Option Str
  cpu_time : Option ℚ

/-- Suffix test `name.endswith(suf)`. -/
def endsWithStr (suf s : Str) : Bool := List.isSuffixOf suf s

/-- Python `name[: -len(suf)]` for a suffix `suf` of `name`. -/
def dropSuffix (suf s : Str) : Str := s.take (s.length - suf.length)

/-- Fallback branch of `_base_name_from_entry` working on the `name`
field: strip a known aggregate suffix, else keep the name. -/
def nameFallback : Option Str → Option Str
  | none => none
  | some n =>
    if n = [] then none
    else if endsWithStr (strL "_mean") n then some (dropSuffix (strL "_mean") n)
    else if endsWithStr (strL "_median") n then some (dropSuffix (strL "_median") n)
    else if endsWithStr (strL "_stddev") n then some (dropSuffix (strL "_stddev") n)
    else if endsWithStr (strL "_cv") n then some (dropSuffix (strL "_cv") n)
    else some n

/-- `_base_name_from_entry`: prefer a truthy `run_name`, else derive the
base name from `name`. -/
def base_name_from_entry (e : MetricEntry) : Option Str :=
  match strTruthy e.run_name with
  | some rn => some rn
  | none => nameFallback e.name

/-- Body of the loop of `_extract_metrics`: resolve the base name,
register it (`out.setdefault(base, ...)`), then store `cpu_time` under
the explicit aggregate kind when one is present, else as the `mean` when
no `mean` is stored yet. -/
def extractMetricStep (out : AggSet) (e : MetricEntry) : AggSet :=
  match base_name_from_entry e with
  | none => out
  | some base =>
    let out1 := dsetdefault base [] out
    match e.cpu_time with
    | none => out1
    | some v =>
      match strTruthy e.aggregate_name with
      | some ag => dmodify base (fun slot => dinsert ag v slot) out1
      | none =>
        match dlookup base out1 with
        | some slot =>
          match dlookup meanKey slot with
          | none => dmodify base (fun s => dinsert meanKey v s) out1
          | some _ => out1
        | none => out1

/-- `_extract_metrics`: fold the entries into an `AggSet`. -/
def extract_metrics (payload : List MetricEntry) : AggSet :=
  payload.foldl extractMetricStep []

/-- Prefix of a string before the first `sep`, with the remainder:
Python `s.split(sep, 1)` when the separator occurs. -/
def splitFirst (sep : Char) : Str → Option (Str × Str)
  | [] => none
  | a :: as =>
    if a = sep then some ([], as)
    else (splitFirst sep as).map (fun p => (a :: p.1, p.2))

/-- The `"Unknown"` implementation sentinel. -/
def unknownImpl : Str := strL "Unknown"

/-- Core of a base name in `_split_impl_and_scenario`: drop the
parameter suffix after the first `/` (`base_name.split("/", 1)[0]`),
then strip a leading `BM_`. -/
def coreOf (base_name : Str) : Str :=
  let core0 := base_name.takeWhile (fun c => c ≠ '/')
  if core0.take 3 = strL "BM_" then core0.drop 3 else core0

/-- `_split_impl_and_scenario`: split the core on the first `_`; with
no separator the implementation is the `"Unknown"` sentinel. -/
def split_impl_and_scenario (base_name : Str) : Str × Str :=
  match splitFirst '_' (coreOf base_name) with
  | none => (unknownImpl, coreOf base_name)
  | some p => p

/-- `_default_impl_order`: known labels in the fixed preferred order,
then the unknown ones sorted lexically. -/
def preferredImpls : List Str :=
  [strL "Patternia", strL "IfElse", strL "Switch", strL "SwitchIndex",
   strL "StdVisit"]

def default_impl_order (impls : List Str) : List Str :=
  let found := impls.dedup
  let ordered := preferredImpls.filter (fun x => found.contains x)
  let others :=
    (found.filter (fun x => !(preferredImpls.contains x))).mergeSort lexLe
  ordered ++ others

/-- Loop body of `_to_points` for one `(base_name, m)` item of the
sorted metrics: skip names the filter rejects and names without a
`mean`. -/
def mkPoint (inc : Option (Str → Bool)) (pm : Str × Slot) :
    Option BenchPoint :=
  let keep :=
    match inc with
    | some p => p pm.1
    | none => true
  if keep then
    match dlookup meanKey pm.2 with
    | none => none
    | some mean =>
      let is2 := split_impl_and_scenario pm.1
      some
        { base_name := pm.1
          impl := is2.1
          scenario := is2.2
          mean_ns := mean
          cv_pct := (dlookup cvKey pm.2).map (fun x => x * 100)
          median_ns := dlookup medianKey pm.2
          stddev_ns := dlookup stddevKey pm.2 }
  else none

/-- `_to_points`: iterate `sorted(metrics.items())` (sorted by key, the
keys being unique) and build the surviving points. -/
def to_points (metrics : AggSet) (inc : Option (Str → Bool)) :
    List BenchPoint :=
  (metrics.mergeSort (fun p q => lexLe p.1 q.1)).filterMap (mkPoint inc)

/-- `_to_nested`: bucket points by scenario, then by implementation
(`nested.setdefault(p.scenario, {})[p.impl] = p`). -/
def to_nested (points : List BenchPoint) :
    List (Str × List (Str × BenchPoint)) :=
  points.foldl
    (fun n p =>
      dmodify p.scenario (fun row => dinsert p.impl p row)
        (dsetdefault p.scenario [] n))
    []

/-- Values view of one scenario row (`row.values()`), in insertion
order. -/
def rowValues (row : List (Str × BenchPoint)) : List BenchPoint :=
  row.map Prod.snd

/-- Python `min(points, key=lambda x: x.mean_ns)`: the first point
attaining the minimal mean; `none` on an empty collection (where Python
raises). Used for the fastest-in-group selection of `_save_markdown`
and `_plot`. -/
def minStep (best x : BenchPoint) : BenchPoint :=
  if x.mean_ns < best.mean_ns then x else best

def minByMean (points : List BenchPoint) : Option BenchPoint :=
  match points with
  | [] => none
  | p :: ps => some (ps.foldl minStep p)

/-- Fastest point of one scenario of the nested structure. -/
def groupFastest (nested : List (Str × List (Str × BenchPoint)))
    (scenario : Str) : Option BenchPoint :=
  (dlookup scenario nested).bind (fun row => minByMean (rowValues row))

/-- Delta vs fastest of `_save_markdown`: `(m - f) / f * 100` when the
fastest mean is positive, else `math.nan`. -/
def mdDelta (m fastest_mean : ℚ) : Option ℚ :=
  if fastest_mean > 0 then some ((m - fastest_mean) / fastest_mean * 100)
  else none

/-- Relative slowdown of `_plot`: `(v / f - 1) * 100` when the fastest
mean is positive, else `math.nan`. -/
def plotRel (v fastest_mean : ℚ) : Option ℚ :=
  if fastest_mean > 0 then some ((v / fastest_mean - 1) * 100)
  else none

/-- Lookup of one statistic of one identity in an `AggSet`. -/
def slotLookup (idk statk : Str) (d : AggSet) : Option ℚ :=
  (dlookup idk d).bind (fun s => dlookup statk s)

/-! ## Helper lemmas -/

theorem splitFirst_eq_none_iff (sep : Char) :
    ∀ s : Str, splitFirst sep s = none ↔ sep ∉ s
  | [] => by simp [splitFirst]
  | x :: xs => by
    by_cases hx : x = sep
    · subst hx
      simp [splitFirst]
    · simp [splitFirst, hx, splitFirst_eq_none_iff sep xs, Ne.symm hx]

theorem splitFirst_eq_some (sep : Char) :
    ∀ s a b2 : Str, splitFirst sep s = some (a, b2) →
      s = a ++ sep :: b2 ∧ sep ∉ a
  | [], a, b2, h => by simp [splitFirst] at h
  | x :: xs, a, b2, h => by
    by_cases hx : x = sep
    · subst hx
      simp only [splitFirst, if_pos rfl, Option.some.injEq, Prod.mk.injEq] at h
      obtain ⟨rfl, rfl⟩ := h
      simp
    · rw [splitFirst, if_neg hx] at h
      cases hrec : splitFirst sep xs with
      | none => rw [hrec] at h; exact Option.noConfusion h
      | some p =>
        rw [hrec] at h
        obtain ⟨a1, b1⟩ := p
        simp only [Option.map_some', Option.some.injEq, Prod.mk.injEq] at h
        obtain ⟨rfl, rfl⟩ := h
        obtain ⟨hcat, hnot⟩ := splitFirst_eq_some sep xs a1 b1 hrec
        subst hcat
        have hsx : ¬sep = x := fun hh => hx hh.symm
        exact ⟨rfl, by simp [hnot, hsx]⟩

/-- Unpack a successful `mkRow`: the looked-up slots, the two means and
the exact shape of the produced row. -/
theorem mkRow_eq_some {b c : AggSet} {n : Str} {r : BenchRow}
    (h : mkRow b c n = some r) :
    ∃ bslot cslot b_mean c_mean,
      dlookup n b = some bslot ∧ dlookup n c = some cslot ∧
      dlookup meanKey bslot = some b_mean ∧
      dlookup meanKey cslot = some c_mean ∧
      r = { name := n
            baseline_mean_ns := b_mean
            current_mean_ns := c_mean
            delta_pct :=
              if b_mean ≠ 0 then some ((c_mean - b_mean) / b_mean * 100)
              else none
            speedup := if c_mean ≠ 0 then some (b_mean / c_mean) else none
            baseline_cv_pct := (dlookup cvKey bslot).map (fun x => x * 100)
            current_cv_pct := (dlookup cvKey cslot).map (fun x => x * 100) } := by
  cases hb : dlookup n b with
  | none => simp [mkRow, hb] at h
  | some bslot =>
    cases hc : dlookup n c with
    | none => simp [mkRow, hb, hc] at h
    | some cslot =>
      cases hbm : dlookup meanKey bslot with
      | none => simp [mkRow, hb, hc, hbm] at h
      | some b_mean =>
        cases hcm : dlookup meanKey cslot with
        | none => simp [mkRow, hb, hc, hbm, hcm] at h
        | some c_mean =>
          simp only [mkRow, hb, hc, hbm, hcm, Option.some.injEq] at h
          exact ⟨bslot, cslot, b_mean, c_mean, rfl, rfl, hbm, hcm, h.symm⟩

/-- A row of `_to_rows` is exactly the `mkRow` of its own name. -/
theorem mem_to_rows {b c : AggSet} {inc : Option (Str → Bool)}
    {r : BenchRow} (hr : r ∈ to_rows b c inc) :
    mkRow b c r.name = some r := by
  unfold to_rows at hr
  obtain ⟨n, hn, hmk⟩ := List.mem_filterMap.mp hr
  obtain ⟨bs2, cs2, bm, cm, _, _, _, _, rfl⟩ := mkRow_eq_some hmk
  exact hmk

/-! ## Claims -/

/-- C4: every matched pairwise row with baseline mean `b` and current
mean `c` has `delta_pct = (c - b) / b * 100` when `b` is non-zero and
the undefined marker (`math.nan`, modelled `none`) when `b = 0`, and
`speedup = b / c` when `c` is non-zero and the undefined marker when
`c = 0`. -/
theorem C4_row_delta_speedup (b c : AggSet) (inc : Option (Str → Bool))
    (r : BenchRow) (hr : r ∈ to_rows b c inc) :
    r.delta_pct =
      (if r.baseline_mean_ns ≠ 0 then
        some ((r.current_mean_ns - r.baseline_mean_ns) /
          r.baseline_mean_ns * 100)
       else none) ∧
    r.speedup =
      (if r.current_mean_ns ≠ 0 then
        some (r.baseline_mean_ns / r.current_mean_ns)
       else none) := by
  obtain ⟨bs2, cs2, bm, cm, _, _, _, _, heq⟩ :=
    mkRow_eq_some (mem_to_rows hr)
  rw [heq]
  exact ⟨rfl, rfl⟩

def bSample : AggSet := [(strL "k", [(meanKey, 100)])]
def cSample : AggSet := [(strL "k", [(meanKey, 120)])]

/-- Row produced by `_to_rows` on `bSample`, `cSample`. -/
def rowSample : BenchRow :=
  { name := strL "k"
    baseline_mean_ns := 100
    current_mean_ns := 120
    delta_pct := some 20
    speedup := some (5 / 6)
    baseline_cv_pct := none
    current_cv_pct := none }

theorem C4_row_delta_speedup_witness :
    rowSample ∈ to_rows bSample cSample none ∧
    (rowSample.delta_pct =
      (if rowSample.baseline_mean_ns ≠ 0 then
        some ((rowSample.current_mean_ns - rowSample.baseline_mean_ns) /
          rowSample.baseline_mean_ns * 100)
       else none) ∧
     rowSample.speedup =
      (if rowSample.current_mean_ns ≠ 0 then
        some (rowSample.baseline_mean_ns / rowSample.current_mean_ns)
       else none)) :=
  ⟨by decide, C4_row_delta_speedup bSample cSample none rowSample (by decide)⟩

/-- C6: the regression gate keeps exactly the rows whose `delta_pct` is
defined (finite) and strictly greater than the threshold; a row with
undefined `delta_pct` is never a violation. -/
theorem C6_find_regressions_mem (rows : List BenchRow) (t : ℚ)
    (r : BenchRow) :
    r ∈ find_regressions rows t ↔
      r ∈ rows ∧ ∃ d, r.delta_pct = some d ∧ t < d := by
  unfold find_regressions
  rw [List.mem_filter]
  cases hd : r.delta_pct with
  | none => simp [is_finite, optGtBool, hd]
  | some d => simp [is_finite, optGtBool, hd]

/-- C7: the identity decomposer is total; it drops the text after the
first `/`, strips a leading `BM_` (this is `coreOf`), and splits on the
first `_` into `(implementation, scenario)`; with no `_` present it
returns the `"Unknown"` sentinel and the whole core. -/
theorem C7_split_impl_and_scenario_spec (base_name : Str) :
    ('_' ∉ coreOf base_name →
      split_impl_and_scenario base_name = (unknownImpl, coreOf base_name)) ∧
    ('_' ∈ coreOf base_name →
      ∃ impl scen,
        split_impl_and_scenario base_name = (impl, scen) ∧
        coreOf base_name = impl ++ '_' :: scen ∧ '_' ∉ impl) := by
  constructor
  · intro h
    unfold split_impl_and_scenario
    rw [(splitFirst_eq_none_iff '_' (coreOf base_name)).mpr h]
  · intro h
    unfold split_impl_and_scenario
    cases hs : splitFirst '_' (coreOf base_name) with
    | none =>
      exact absurd ((splitFirst_eq_none_iff '_' _).mp hs) (by simpa using h)
    | some p =>
      obtain ⟨hcat, hnot⟩ := splitFirst_eq_some '_' _ p.1 p.2 (by simpa using hs)
      exact ⟨p.1, p.2, rfl, hcat, hnot⟩

theorem C7_split_impl_and_scenario_spec_witness :
    ('_' ∉ coreOf (strL "BM_Foo") ∧
      split_impl_and_scenario (strL "BM_Foo") =
        (unknownImpl, coreOf (strL "BM_Foo"))) ∧
    ('_' ∈ coreOf (strL "BM_Patternia_Lookup/min_time:1") ∧
      ∃ impl scen,
        split_impl_and_scenario (strL "BM_Patternia_Lookup/min_time:1") =
          (impl, scen) ∧
        coreOf (strL "BM_Patternia_Lookup/min_time:1") =
          impl ++ '_' :: scen ∧ '_' ∉ impl) :=
  ⟨⟨by decide,
    (C7_split_impl_and_scenario_spec (strL "BM_Foo")).1 (by decide)⟩,
   ⟨by decide,
    (C7_split_impl_and_scenario_spec
      (strL "BM_Patternia_Lookup/min_time:1")).2 (by decide)⟩⟩

/-- C5: with a fastest point of positive mean, the markdown delta and
the plot relative slowdown of a point with mean `m` both equal
`(m / fastest_mean - 1) * 100`, and the fastest point's own value is
exactly 0. -/
theorem C5_relative_slowdown (row : List (Str × BenchPoint))
    (p : BenchPoint) (hfast : minByMean (rowValues row) = some p)
    (hp : 0 < p.mean_ns) (q : BenchPoint) (hq : q ∈ rowValues row) :
    mdDelta q.mean_ns p.mean_ns =
      some ((q.mean_ns / p.mean_ns - 1) * 100) ∧
    plotRel q.mean_ns p.mean_ns =
      some ((q.mean_ns / p.mean_ns - 1) * 100) ∧
    mdDelta p.mean_ns p.mean_ns = some 0 ∧
    plotRel p.mean_ns p.mean_ns = some 0 := by
  have hne : p.mean_ns ≠ 0 := ne_of_gt hp
  refine ⟨?_, ?_, ?_, ?_⟩
  · unfold mdDelta
    rw [if_pos hp]
    congr 1
    field_simp
  · unfold plotRel
    rw [if_pos hp]
  · unfold mdDelta
    rw [if_pos hp, sub_self, zero_div, zero_mul]
  · unfold plotRel
    rw [if_pos hp, div_self hne, sub_self, zero_mul]

/-- Point of the `Patternia` implementation in the `Lookup` scenario. -/
def pPat : BenchPoint :=
  { base_name := strL "BM_Patternia_Lookup"
    impl := strL "Patternia"
    scenario := strL "Lookup"
    mean_ns := 50
    cv_pct := none
    median_ns := none
    stddev_ns := none }

/-- Point of the `IfElse` implementation in the `Lookup` scenario. -/
def pIf : BenchPoint :=
  { base_name := strL "BM_IfElse_Lookup"
    impl := strL "IfElse"
    scenario := strL "Lookup"
    mean_ns := 75
    cv_pct := none
    median_ns := none
    stddev_ns := none }

/-- The `Lookup` scenario row holding both points. -/
def rowLookup : List (Str × BenchPoint) :=
  [(strL "Patternia", pPat), (strL "IfElse", pIf)]

theorem C5_relative_slowdown_witness :
    minByMean (rowValues rowLookup) = some pPat ∧
    0 < pPat.mean_ns ∧ pIf ∈ rowValues rowLookup ∧
    (mdDelta pIf.mean_ns pPat.mean_ns =
      some ((pIf.mean_ns / pPat.mean_ns - 1) * 100) ∧
     plotRel pIf.mean_ns pPat.mean_ns =
      some ((pIf.mean_ns / pPat.mean_ns - 1) * 100) ∧
     mdDelta pPat.mean_ns pPat.mean_ns = some 0 ∧
     plotRel pPat.mean_ns pPat.mean_ns = some 0) :=
  ⟨by decide, by decide, by decide,
   C5_relative_slowdown rowLookup pPat (by decide) (by decide) pIf
     (by decide)⟩

/-- C10: a record carrying an identity and an aggregate kind but no
`cpu_time` registers the identity with an empty slot, so the identity
is in the pairwise key intersection yet `_to_rows` emits no row for it
(no `mean` on the baseline side). -/
theorem C10_valueless_record_registers_identity :
    extract_aggregates
      [{ run_name := some (strL "k"), aggregate_name := some (strL "mean"),
         cpu_time := none }] = [(strL "k", [])] ∧
    (strL "k") ∈ dkeys (extract_aggregates
      [{ run_name := some (strL "k"), aggregate_name := some (strL "mean"),
         cpu_time := none }]) ∧
    (strL "k") ∈ dkeys (extract_aggregates
      [{ run_name := some (strL "k"), aggregate_name := some (strL "mean"),
         cpu_time := some 1 }]) ∧
    to_rows
      (extract_aggregates
        [{ run_name := some (strL "k"), aggregate_name := some (strL "mean"),
           cpu_time := none }])
      (extract_aggregates
        [{ run_name := some (strL "k"), aggregate_name := some (strL "mean"),
           cpu_time := some 1 }])
      none = [] := by
  decide

/-- C8: on a matched pairwise row with non-zero baseline and current
means, the speedup is exactly `1 / (1 + delta_pct / 100)` (the rational
embedding makes the floating-point tolerance exact). -/
theorem C8_speedup_delta_inverse (b c : AggSet)
    (inc : Option (Str → Bool)) (r : BenchRow) (hr : r ∈ to_rows b c inc)
    (hb : r.baseline_mean_ns ≠ 0) (hc : r.current_mean_ns ≠ 0) :
    ∃ d s, r.delta_pct = some d ∧ r.speedup = some s ∧
      s = 1 / (1 + d / 100) := by
  obtain ⟨bs2, cs2, bm, cm, _, _, _, _, heq⟩ :=
    mkRow_eq_some (mem_to_rows hr)
  have hbm_eq : r.baseline_mean_ns = bm := by rw [heq]
  have hcm_eq : r.current_mean_ns = cm := by rw [heq]
  have hb2 : bm ≠ 0 := hbm_eq ▸ hb
  have hc2 : cm ≠ 0 := hcm_eq ▸ hc
  refine ⟨(cm - bm) / bm * 100, bm / cm, ?_, ?_, ?_⟩
  · rw [heq]
    exact if_pos hb2
  · rw [heq]
    exact if_pos hc2
  · have key : (1 : ℚ) + ((cm - bm) / bm * 100) / 100 = cm / bm := by
      field_simp
      ring
    rw [key, one_div_div]

theorem C8_speedup_delta_inverse_witness :
    rowSample ∈ to_rows bSample cSample none ∧
    rowSample.baseline_mean_ns ≠ 0 ∧ rowSample.current_mean_ns ≠ 0 ∧
    (∃ d s, rowSample.delta_pct = some d ∧ rowSample.speedup = some s ∧
      s = 1 / (1 + d / 100)) :=
  ⟨by decide, by decide, by decide,
   C8_speedup_delta_inverse bSample cSample none rowSample (by decide)
     (by decide) (by decide)⟩

/-- Folding `minStep` over `ps` from `p` returns the first point of
`p :: ps` attaining the minimal mean: everything strictly before it has
a strictly larger mean and everything has at least its mean. -/
theorem foldl_minStep_spec :
    ∀ (ps : List BenchPoint) (p : BenchPoint),
      ∃ l1 l2,
        p :: ps = l1 ++ (ps.foldl minStep p) :: l2 ∧
        (∀ q ∈ l1, (ps.foldl minStep p).mean_ns < q.mean_ns) ∧
        ∀ q ∈ p :: ps, (ps.foldl minStep p).mean_ns ≤ q.mean_ns
  | [], p => ⟨[], [], rfl, by simp, by simp⟩
  | x :: xs, p => by
    rw [List.foldl_cons]
    obtain ⟨l1, l2, hsplit, hlt, hle⟩ := foldl_minStep_spec xs (minStep p x)
    by_cases hx : x.mean_ns < p.mean_ns
    · have hstep : minStep p x = x := if_pos hx
      rw [hstep] at hsplit hlt hle
      have hrx : (xs.foldl minStep x).mean_ns ≤ x.mean_ns :=
        hle x (List.mem_cons_self x xs)
      rw [hstep]
      refine ⟨p :: l1, l2, ?_, ?_, ?_⟩
      · rw [List.cons_append, ← hsplit]
      · intro q hq
        rcases List.mem_cons.mp hq with rfl | hq2
        · exact lt_of_le_of_lt hrx hx
        · exact hlt q hq2
      · intro q hq
        rcases List.mem_cons.mp hq with rfl | hq2
        · exact le_of_lt (lt_of_le_of_lt hrx hx)
        · exact hle q hq2
    · have hstep : minStep p x = p := if_neg hx
      rw [hstep] at hsplit hlt hle
      rw [hstep]
      cases l1 with
      | nil =>
        rw [List.nil_append] at hsplit
        injection hsplit with h1 h2
        refine ⟨[], x :: xs, ?_, by simp, ?_⟩
        · rw [List.nil_append, ← h1]
        · intro q hq
          rw [← h1]
          rcases List.mem_cons.mp hq with rfl | hq2
          · exact le_refl _
          rcases List.mem_cons.mp hq2 with rfl | hq3
          · exact le_of_not_lt hx
          · have hq4 := hle q (List.mem_cons_of_mem p hq3)
            rw [← h1] at hq4
            exact hq4
      | cons a l1x =>
        rw [List.cons_append] at hsplit
        injection hsplit with h1 h2
        have hrp : (xs.foldl minStep p).mean_ns < p.mean_ns := by
          have ha := hlt a (List.mem_cons_self a l1x)
          rw [← h1] at ha
          exact ha
        refine ⟨p :: x :: l1x, l2, ?_, ?_, ?_⟩
        · rw [List.cons_append, List.cons_append, ← h2]
        · intro q hq
          rcases List.mem_cons.mp hq with rfl | hq2
          · exact hrp
          rcases List.mem_cons.mp hq2 with rfl | hq3
          · exact lt_of_lt_of_le hrp (le_of_not_lt hx)
          · exact hlt q (List.mem_cons_of_mem a hq3)
        · intro q hq
          rcases List.mem_cons.mp hq with rfl | hq2
          · exact le_of_lt hrp
          rcases List.mem_cons.mp hq2 with rfl | hq3
          · exact le_of_lt (lt_of_lt_of_le hrp (le_of_not_lt hx))
          · exact hle q (List.mem_cons_of_mem p hq3)

/-- `IfElse` point tied with `Patternia` at mean 5 in scenario `s`. -/
def pIfElseTie : BenchPoint :=
  { base_name := strL "BM_IfElse_s"
    impl := strL "IfElse"
    scenario := strL "s"
    mean_ns := 5
    cv_pct := none
    median_ns := none
    stddev_ns := none }

/-- `Patternia` point tied with `IfElse` at mean 5 in scenario `s`. -/
def pPatterniaTie : BenchPoint :=
  { base_name := strL "BM_Patternia_s"
    impl := strL "Patternia"
    scenario := strL "s"
    mean_ns := 5
    cv_pct := none
    median_ns := none
    stddev_ns := none }

/-- C2 counterexample: on a mean tie the selection depends on the
supplied order of the points (permuting the two tied points flips the
result), and the pipeline (points sorted by base name) selects
`IfElse`, not the implementation the preferred order ranks first
(`Patternia`). -/
theorem C2_counterexample :
    to_points
      [(strL "BM_IfElse_s", [(meanKey, 5)]),
       (strL "BM_Patternia_s", [(meanKey, 5)])] none =
      [pIfElseTie, pPatterniaTie] ∧
    List.Perm [pIfElseTie, pPatterniaTie] [pPatterniaTie, pIfElseTie] ∧
    minByMean [pIfElseTie, pPatterniaTie] = some pIfElseTie ∧
    minByMean [pPatterniaTie, pIfElseTie] = some pPatterniaTie ∧
    pIfElseTie ≠ pPatterniaTie ∧
    default_impl_order [strL "IfElse", strL "Patternia"] =
      [strL "Patternia", strL "IfElse"] ∧
    (groupFastest (to_nested [pIfElseTie, pPatterniaTie]) (strL "s")).map
      (fun p2 => p2.impl) = some (strL "IfElse") := by
  decide

/-- C2 amended: the fastest selection (`min` by `mean_ns`) returns the
first point of the group attaining the minimal mean, in the order the
points are stored; a tie is broken by that order (in the pipeline:
lexically smallest base name), not by the preferred implementation
order, so permuting tied points can change the selection. -/
theorem C2_minByMean_first_min (points : List BenchPoint)
    (p : BenchPoint) (h : minByMean points = some p) :
    ∃ l1 l2, points = l1 ++ p :: l2 ∧
      (∀ q ∈ l1, p.mean_ns < q.mean_ns) ∧
      ∀ q ∈ points, p.mean_ns ≤ q.mean_ns := by
  cases points with
  | nil => exact Option.noConfusion h
  | cons p0 ps =>
    simp only [minByMean, Option.some.injEq] at h
    subst h
    exact foldl_minStep_spec ps p0

theorem C2_minByMean_first_min_witness :
    minByMean [pIfElseTie, pPatterniaTie] = some pIfElseTie ∧
    (∃ l1 l2, [pIfElseTie, pPatterniaTie] = l1 ++ pIfElseTie :: l2 ∧
      (∀ q ∈ l1, pIfElseTie.mean_ns < q.mean_ns) ∧
      ∀ q ∈ [pIfElseTie, pPatterniaTie],
        pIfElseTie.mean_ns ≤ q.mean_ns) :=
  ⟨by decide,
   C2_minByMean_first_min [pIfElseTie, pPatterniaTie] pIfElseTie
     (by decide)⟩

/-- C9 counterexample: with baseline mean -2 (non-zero) and current
mean -3, the current mean is below the baseline mean yet `delta_pct`
is +50, not negative. -/
theorem C9_counterexample :
    to_rows [(strL "k", [(meanKey, -2)])] [(strL "k", [(meanKey, -3)])]
      none =
      [{ name := strL "k"
         baseline_mean_ns := -2
         current_mean_ns := -3
         delta_pct := some 50
         speedup := some (2 / 3)
         baseline_cv_pct := none
         current_cv_pct := none }] ∧
    (-3 : ℚ) < -2 ∧ ¬(50 : ℚ) < 0 := by
  decide

/-- C9 amended: on a matched pairwise row with positive baseline mean,
`delta_pct` is negative iff the current mean is below the baseline
mean, positive iff above, and zero iff they are equal. -/
theorem C9_delta_sign (b c : AggSet) (inc : Option (Str → Bool))
    (r : BenchRow) (hr : r ∈ to_rows b c inc)
    (hb : 0 < r.baseline_mean_ns) :
    ∃ d, r.delta_pct = some d ∧
      (d < 0 ↔ r.current_mean_ns < r.baseline_mean_ns) ∧
      (0 < d ↔ r.baseline_mean_ns < r.current_mean_ns) ∧
      (d = 0 ↔ r.current_mean_ns = r.baseline_mean_ns) := by
  obtain ⟨bs2, cs2, bm, cm, _, _, _, _, heq⟩ :=
    mkRow_eq_some (mem_to_rows hr)
  have hbm : r.baseline_mean_ns = bm := by rw [heq]
  have hcm : r.current_mean_ns = cm := by rw [heq]
  rw [hbm] at hb
  have hbne : bm ≠ 0 := ne_of_gt hb
  have hpos : (0 : ℚ) < 100 / bm := div_pos (by norm_num) hb
  have hform : (cm - bm) / bm * 100 = (cm - bm) * (100 / bm) := by ring
  refine ⟨(cm - bm) / bm * 100, ?_, ?_, ?_, ?_⟩
  · rw [heq]
    exact if_pos hbne
  · rw [hcm, hbm, hform]
    constructor
    · intro hd
      rcases mul_neg_iff.mp hd with ⟨h1, h2⟩ | ⟨h1, h2⟩
      · exact absurd hpos (not_lt.mpr (le_of_lt h2))
      · linarith
    · intro hlt
      exact mul_neg_of_neg_of_pos (by linarith) hpos
  · rw [hcm, hbm, hform]
    constructor
    · intro hd
      rcases mul_pos_iff.mp hd with ⟨h1, h2⟩ | ⟨h1, h2⟩
      · linarith
      · exact absurd hpos (not_lt.mpr (le_of_lt h2))
    · intro hlt
      exact mul_pos (by linarith) hpos
  · rw [hcm, hbm, hform]
    constructor
    · intro hd
      rcases mul_eq_zero.mp hd with h1 | h1
      · exact sub_eq_zero.mp h1
      · exact absurd h1 (ne_of_gt hpos)
    · intro hq
      rw [hq, sub_self, zero_mul]

theorem C9_delta_sign_witness :
    rowSample ∈ to_rows bSample cSample none ∧
    0 < rowSample.baseline_mean_ns ∧
    (∃ d, rowSample.delta_pct = some d ∧
      (d < 0 ↔ rowSample.current_mean_ns < rowSample.baseline_mean_ns) ∧
      (0 < d ↔ rowSample.baseline_mean_ns < rowSample.current_mean_ns) ∧
      (d = 0 ↔ rowSample.current_mean_ns = rowSample.baseline_mean_ns)) :=
  ⟨by decide, by decide,
   C9_delta_sign bSample cSample none rowSample (by decide) (by decide)⟩

/-- Kind resolution following the words of the claim, for comparison
with `extract_metrics`: when the explicit kind is absent, derive the
kind from the `_mean` / `_median` / `_stddev` / `_cv` suffix while
stripping it to recover the base identity; with no matching suffix the
kind stays undetermined. -/
def nameKindAsSpecified (n : Str) : Str × Option Str :=
  if endsWithStr (strL "_mean") n then
    (dropSuffix (strL "_mean") n, some meanKey)
  else if endsWithStr (strL "_median") n then
    (dropSuffix (strL "_median") n, some medianKey)
  else if endsWithStr (strL "_stddev") n then
    (dropSuffix (strL "_stddev") n, some stddevKey)
  else if endsWithStr (strL "_cv") n then
    (dropSuffix (strL "_cv") n, some cvKey)
  else (n, none)

/-- Extractor step following the words of the claim: with an explicit
kind behave as the code does; with no explicit kind store the value
under the suffix-derived kind, and only with no matching suffix fall
back to the missing `mean`. -/
def extractMetricStepAsSpecified (out : AggSet) (e : MetricEntry) :
    AggSet :=
  match strTruthy e.aggregate_name with
  | some ag =>
    match base_name_from_entry e, e.cpu_time with
    | some base, some v =>
      dmodify base (fun s => dinsert ag v s) (dsetdefault base [] out)
    | some base, none => dsetdefault base [] out
    | none, _ => out
  | none =>
    match e.name with
    | none => out
    | some n =>
      if n = [] then out
      else
        match nameKindAsSpecified n, e.cpu_time with
        | (base, some k), some v =>
          dmodify base (fun s => dinsert k v s) (dsetdefault base [] out)
        | (base, none), some v =>
          let out1 := dsetdefault base [] out
          match dlookup base out1 with
          | some slot =>
            match dlookup meanKey slot with
            | none => dmodify base (fun s => dinsert meanKey v s) out1
            | some _ => out1
          | none => out1
        | (base, _), none => dsetdefault base [] out

/-- Extractor following the words of the claim. -/
def extract_metrics_asSpecified (payload : List MetricEntry) : AggSet :=
  payload.foldl extractMetricStepAsSpecified []

/-- Record named `foo_median` with a value but no explicit kind. -/
def eFooMedian : MetricEntry :=
  { run_name := none
    name := some (strL "foo_median")
    aggregate_name := none
    cpu_time := some 5 }

/-- C3 counterexample: for the kindless record `foo_median` with value
5, the code stores the value as the `mean` of `foo` and records no
`median` at all, while the claim's suffix-derived resolution would
store it as the `median`; the two extractors disagree on this input. -/
theorem C3_counterexample :
    extract_metrics [eFooMedian] = [(strL "foo", [(meanKey, 5)])] ∧
    slotLookup (strL "foo") medianKey (extract_metrics [eFooMedian]) =
      none ∧
    extract_metrics_asSpecified [eFooMedian] =
      [(strL "foo", [(medianKey, 5)])] ∧
    extract_metrics [eFooMedian] ≠
      extract_metrics_asSpecified [eFooMedian] := by
  decide

/-- C3 amended: the naming suffix only recovers the base identity; for
a record with no explicit kind and a value, the value becomes the
identity's `mean` exactly when no `mean` is stored yet (whatever suffix
matched), and every other statistic of that identity is unchanged. -/
theorem C3_kindless_value_stored_as_mean (out : AggSet)
    (e : MetricEntry) (base : Str) (v : ℚ)
    (hbase : base_name_from_entry e = some base)
    (hagg : strTruthy e.aggregate_name = none)
    (hcpu : e.cpu_time = some v) :
    slotLookup base meanKey (extractMetricStep out e) =
      some ((slotLookup base meanKey out).getD v) ∧
    ∀ k, k ≠ meanKey →
      slotLookup base k (extractMetricStep out e) =
        slotLookup base k out := by
  cases hdo : dlookup base out with
  | none =>
    have h1 : dlookup base (dsetdefault base [] out) = some [] := by
      rw [dlookup_dsetdefault_self, hdo]
      rfl
    simp only [extractMetricStep, hbase, hcpu, hagg, h1, dlookup]
    constructor
    · unfold slotLookup
      rw [dlookup_dmodify_self, h1, hdo]
      simp [dinsert, dlookup]
    · intro k hk
      unfold slotLookup
      rw [dlookup_dmodify_self, h1, hdo]
      simp [dinsert, dlookup, Ne.symm hk]
  | some slot =>
    have hsd : dsetdefault base [] out = out := by
      unfold dsetdefault
      rw [hdo]
    cases hm : dlookup meanKey slot with
    | none =>
      simp only [extractMetricStep, hbase, hcpu, hagg, hsd, hdo, hm]
      constructor
      · unfold slotLookup
        rw [dlookup_dmodify_self, hdo]
        simp [dlookup_dinsert_self, hm]
      · intro k hk
        unfold slotLookup
        rw [dlookup_dmodify_self, hdo]
        simp [dlookup_dinsert_ne meanKey k v hk slot]
    | some w =>
      simp only [extractMetricStep, hbase, hcpu, hagg, hsd, hdo, hm]
      constructor
      · unfold slotLookup
        rw [hdo]
        simp [hm]
      · intro k hk
        trivial

theorem C3_kindless_value_stored_as_mean_witness :
    base_name_from_entry eFooMedian = some (strL "foo") ∧
    strTruthy eFooMedian.aggregate_name = none ∧
    eFooMedian.cpu_time = some 5 ∧ medianKey ≠ meanKey ∧
    slotLookup (strL "foo") meanKey (extractMetricStep [] eFooMedian) =
      some ((slotLookup (strL "foo") meanKey []).getD 5) ∧
    slotLookup (strL "foo") medianKey (extractMetricStep [] eFooMedian) =
      slotLookup (strL "foo") medianKey [] :=
  ⟨by decide, by decide, by decide, by decide,
   (C3_kindless_value_stored_as_mean [] eFooMedian (strL "foo") 5
     (by decide) (by decide) (by decide)).1,
   (C3_kindless_value_stored_as_mean [] eFooMedian (strL "foo") 5
     (by decide) (by decide) (by decide)).2 medianKey (by decide)⟩

/-- Name of a successfully built row. -/
theorem mkRow_name {b c : AggSet} {n : Str} {r : BenchRow}
    (h : mkRow b c n = some r) : r.name = n := by
  obtain ⟨_, _, _, _, _, _, _, _, heq⟩ := mkRow_eq_some h
  rw [heq]

/-- `mkRow` succeeds exactly when both slots carry a `mean`. -/
theorem mkRow_isSome_iff (b c : AggSet) (n : Str) :
    (mkRow b c n).isSome = true ↔
      (slotLookup n meanKey b).isSome = true ∧
      (slotLookup n meanKey c).isSome = true := by
  unfold mkRow slotLookup
  cases hb : dlookup n b with
  | none => simp
  | some bs2 =>
    cases hc : dlookup n c with
    | none => simp
    | some cs2 =>
      cases hbm : dlookup meanKey bs2 with
      | none => simp [hbm]
      | some bmv =>
        cases hcm : dlookup meanKey cs2 with
        | none => simp [hbm, hcm]
        | some cmv => simp [hbm, hcm]

/-- Projecting the names out of the built rows is a sublist of the
name list fed to `filterMap`. -/
theorem map_name_filterMap_sublist (b c : AggSet) :
    ∀ names : List Str,
      List.Sublist ((names.filterMap (mkRow b c)).map (fun r => r.name))
        names
  | [] => by simp
  | n :: ns => by
    cases hmk : mkRow b c n with
    | none =>
      rw [List.filterMap_cons_none hmk]
      exact (map_name_filterMap_sublist b c ns).cons n
    | some r =>
      rw [List.filterMap_cons_some hmk, List.map_cons, mkRow_name hmk]
      exact (map_name_filterMap_sublist b c ns).cons₂ n

/-- C1 counterexample: identity `k` lies in the key intersection of
the two aggregate sets, but the baseline slot carries no `mean`, so
`_to_rows` emits no row for `k`. -/
theorem C1_counterexample :
    (strL "k") ∈ dkeys [(strL "k", ([] : Slot))] ∧
    (strL "k") ∈ dkeys [(strL "k", [(meanKey, (1 : ℚ))])] ∧
    to_rows [(strL "k", [])] [(strL "k", [(meanKey, 1)])] none = [] := by
  decide

/-- C1 amended: with no name filter, `_to_rows` emits a row for `k` iff
`k` is in the key intersection of the two sets and both slots carry a
`mean`; the rows come in lexically sorted order of identity. -/
theorem C1_to_rows_mem_sorted (b c : AggSet) (k : Str) :
    ((∃ r ∈ to_rows b c none, r.name = k) ↔
      k ∈ dkeys b ∧ k ∈ dkeys c ∧
      (slotLookup k meanKey b).isSome = true ∧
      (slotLookup k meanKey c).isSome = true) ∧
    List.Pairwise (fun s t => lexLe s t = true)
      ((to_rows b c none).map (fun r => r.name)) := by
  have hto : to_rows b c none =
      (((dkeys b).filter (fun n => dcontains n c)).dedup.mergeSort
        lexLe).filterMap (mkRow b c) := rfl
  constructor
  · constructor
    · rintro ⟨r, hr, hname⟩
      rw [hto] at hr
      obtain ⟨n, hn, hmk⟩ := List.mem_filterMap.mp hr
      obtain rfl : n = k := (mkRow_name hmk).symm.trans hname
      rw [List.mem_mergeSort, List.mem_dedup, List.mem_filter] at hn
      have hkeys_c : n ∈ dkeys c := (dcontains_iff_mem_dkeys n c).mp hn.2
      have hsome : (mkRow b c n).isSome = true := by rw [hmk]; rfl
      obtain ⟨h1, h2⟩ := (mkRow_isSome_iff b c n).mp hsome
      exact ⟨hn.1, hkeys_c, h1, h2⟩
    · rintro ⟨hkb, hkc, h1, h2⟩
      have hsome : (mkRow b c k).isSome = true :=
        (mkRow_isSome_iff b c k).mpr ⟨h1, h2⟩
      obtain ⟨r, hmk⟩ := Option.isSome_iff_exists.mp hsome
      refine ⟨r, ?_, mkRow_name hmk⟩
      rw [hto]
      apply List.mem_filterMap.mpr
      refine ⟨k, ?_, hmk⟩
      rw [List.mem_mergeSort, List.mem_dedup, List.mem_filter]
      exact ⟨hkb, (dcontains_iff_mem_dkeys k c).mpr hkc⟩
  · rw [hto]
    have hsorted :=
      List.sorted_mergeSort lexLe_trans lexLe_total
        (((dkeys b).filter (fun n => dcontains n c)).dedup)
    exact List.Pairwise.sublist (map_name_filterMap_sublist b c _) hsorted

end Patternia
